import Mathlib

/-!
Verification development for the `luxbin-chain` cross-chain mirroring pipeline
(`src/immune_service.py` and `src/mirror_service.py`).

The Python source is shallowly embedded: dictionaries become structures with
`Option` fields (a missing dictionary key is `none`), byte strings become
`List Nat` (each element a byte value), SQLite tables become lists of rows
together with an auto-increment counter, and HTTP handlers become pure
functions from input and store state to a response and the new store state.
Network calls and the `hashlib` SHA-256 primitive are taken as parameters of
the functions that use them, since no verified property depends on their
values.
-/

namespace Luxbin

/-! ### Python string ordering

Python compares strings lexicographically by Unicode code point.  `lexLe` is
that comparison on the underlying character lists; `pyLe` lifts it to
`String`.  Python's `sorted` is modelled with `List.insertionSort pyLe`:
for a total order the sorted output is unique up to stability, and stability
is invisible on strings (equal elements are identical), so any correct sort
agrees with CPython's. -/

def lexLe : List Char → List Char → Bool
  | [], _ => true
  | _ :: _, [] => false
  | a :: as, b :: bs => if a < b then true else if b < a then false else lexLe as bs

def pyLe (a b : String) : Prop := lexLe a.data b.data = true

instance pyLe.decRel : DecidableRel pyLe := fun a b =>
  inferInstanceAs (Decidable (lexLe a.data b.data = true))

theorem lexLe_total : ∀ a b : List Char, lexLe a b = true ∨ lexLe b a = true
  | [], _ => Or.inl rfl
  | _ :: _, [] => Or.inr rfl
  | a :: as, b :: bs => by
    rcases lt_trichotomy a b with hab | rfl | hba
    · left
      simp [lexLe, if_pos hab]
    · rcases lexLe_total as bs with h | h
      · left
        simpa [lexLe, lt_irrefl] using h
      · right
        simpa [lexLe, lt_irrefl] using h
    · right
      simp [lexLe, if_pos hba]

theorem lexLe_trans : ∀ a b c : List Char,
    lexLe a b = true → lexLe b c = true → lexLe a c = true
  | [], _, _, _, _ => rfl
  | _ :: _, [], _, h1, _ => by simp [lexLe] at h1
  | _ :: _, _ :: _, [], _, h2 => by simp [lexLe] at h2
  | a :: as, b :: bs, c :: cs, h1, h2 => by
    rcases lt_trichotomy a b with hab | rfl | hba
    · rcases lt_trichotomy b c with hbc | rfl | hcb
      · simp [lexLe, if_pos (lt_trans hab hbc)]
      · simp [lexLe, if_pos hab]
      · rw [lexLe, if_neg (lt_asymm hcb), if_pos hcb] at h2
        exact absurd h2 (by simp)
    · rcases lt_trichotomy a c with hac | rfl | hca
      · simp [lexLe, if_pos hac]
      · rw [lexLe, if_neg (lt_irrefl a), if_neg (lt_irrefl a)] at h1 h2 ⊢
        exact lexLe_trans as bs cs h1 h2
      · rw [lexLe, if_neg (lt_asymm hca), if_pos hca] at h2
        exact absurd h2 (by simp)
    · rw [lexLe, if_neg (lt_asymm hba), if_pos hba] at h1
      exact absurd h1 (by simp)

theorem lexLe_antisymm : ∀ a b : List Char,
    lexLe a b = true → lexLe b a = true → a = b
  | [], [], _, _ => rfl
  | [], _ :: _, _, h2 => by simp [lexLe] at h2
  | _ :: _, [], h1, _ => by simp [lexLe] at h1
  | a :: as, b :: bs, h1, h2 => by
    rcases lt_trichotomy a b with hab | rfl | hba
    · rw [lexLe, if_neg (lt_asymm hab), if_pos hab] at h2
      exact absurd h2 (by simp)
    · rw [lexLe, if_neg (lt_irrefl a), if_neg (lt_irrefl a)] at h1 h2
      exact congrArg (a :: ·) (lexLe_antisymm as bs h1 h2)
    · rw [lexLe, if_neg (lt_asymm hba), if_pos hba] at h1
      exact absurd h1 (by simp)

instance : IsTotal String pyLe := ⟨fun a b => lexLe_total a.data b.data⟩

instance : IsTrans String pyLe := ⟨fun a b c => lexLe_trans a.data b.data c.data⟩

instance : IsAntisymm String pyLe :=
  ⟨fun a b h1 h2 => String.toList_inj.mp (lexLe_antisymm a.data b.data h1 h2)⟩

/-- Python's `sorted` on a list of strings. -/
def pySorted (l : List String) : List String := List.insertionSort pyLe l

theorem pySorted_perm (l : List String) : List.Perm (pySorted l) l :=
  List.perm_insertionSort pyLe l

theorem pySorted_sorted (l : List String) : List.Sorted pyLe (pySorted l) :=
  List.sorted_insertionSort pyLe l

/-- Python `sorted` is invariant under permutation of its input: the unique sorted
list of a multiset. -/
theorem pySorted_eq_of_perm {l₁ l₂ : List String} (h : List.Perm l₁ l₂) :
    pySorted l₁ = pySorted l₂ :=
  List.eq_of_perm_of_sorted
    (((pySorted_perm l₁).trans h).trans (pySorted_perm l₂).symm)
    (pySorted_sorted l₁) (pySorted_sorted l₂)

/-! ### Hex and fixed-width little-endian byte utilities

These model the Python builtins used by `_scale_encode_temporal_lock`:
`bytes.fromhex`, `str.ljust`, `struct.pack('<Q', ·)` / `struct.pack('<I', ·)`
and `bytes.hex`.  CPython's `bytes.fromhex` skips ASCII whitespace between
byte pairs (all six ASCII whitespace characters since Python 3.11; the
second hex digit of a pair must follow the first immediately) and raises
`ValueError` on any other non-hex character, on a whitespace character
between the two digits of a pair, and on a lone trailing digit. -/

def hexDigitVal (c : Char) : Option Nat :=
  if '0' ≤ c ∧ c ≤ '9' then some (c.toNat - 48)
  else if 'a' ≤ c ∧ c ≤ 'f' then some (c.toNat - 87)
  else if 'A' ≤ c ∧ c ≤ 'F' then some (c.toNat - 55)
  else none

/-- The ASCII whitespace characters `bytes.fromhex` skips between pairs
(`Py_ISSPACE`): tab, newline, vertical tab, form feed, carriage return,
space. -/
def isPySpace (c : Char) : Bool :=
  c == ' ' || c == '\t' || c == '\n' || c == '\x0b' || c == '\x0c' || c == '\r'

/-- Models `bytes.fromhex` on the character list: skip whitespace, then
decode one byte from two adjacent hex digits, and repeat; anything else is
a `ValueError` (`none`). -/
def fromhexChars : List Char → Option (List Nat)
  | [] => some []
  | c :: rest =>
    if isPySpace c then fromhexChars rest
    else
      match hexDigitVal c with
      | none => none
      | some hi =>
        match rest with
        | [] => none
        | c2 :: rest2 =>
          match hexDigitVal c2 with
          | none => none
          | some lo => (fromhexChars rest2).map fun bs => (16 * hi + lo) :: bs

def fromhex (s : String) : Option (List Nat) := fromhexChars s.data

/-- Python `s.ljust(w, c)`: pad on the right with `c` up to width `w`. -/
def ljust (s : String) (w : Nat) (c : Char) : String :=
  String.mk (s.data ++ List.replicate (w - s.data.length) c)

def strStartsWith : List Char → List Char → Bool
  | _, [] => true
  | [], _ :: _ => false
  | s :: ss, p :: ps => s = p && strStartsWith ss ps

/-- Python `s.startswith(p)`. -/
def pyStartsWith (s p : String) : Bool := strStartsWith s.data p.data

/-- Python `s[2:]` on the character level (used to strip a `0x` prefix). -/
def pyDrop (s : String) (n : Nat) : String := String.mk (s.data.drop n)

/-- The `w` bytes, little-endian, of the natural number `n` (mod `2^(8w)`). -/
def toLEBytes : Nat → Nat → List Nat
  | 0, _ => []
  | w + 1, n => n % 256 :: toLEBytes w (n / 256)

/-- Recombine little-endian bytes into a natural number. -/
def fromLEBytes : List Nat → Nat
  | [] => 0
  | b :: bs => b + 256 * fromLEBytes bs

/-- Models `struct.pack('<Q', n)`: 8 bytes little-endian; `struct.error` (here
`none`) if `n` is not in `[0, 2^64)` — CPython rejects out-of-range
arguments rather than wrapping them. -/
def packU64LE (n : Int) : Option (List Nat) :=
  if 0 ≤ n ∧ n < 2 ^ 64 then some (toLEBytes 8 n.toNat) else none

/-- Models `struct.pack('<I', n)`: 4 bytes little-endian; `struct.error` if `n` is
not in `[0, 2^32)`. -/
def packU32LE (n : Int) : Option (List Nat) :=
  if 0 ≤ n ∧ n < 2 ^ 32 then some (toLEBytes 4 n.toNat) else none

def hexDigitChar (n : Nat) : Char :=
  if n < 10 then Char.ofNat (48 + n) else Char.ofNat (87 + n)

/-- Python `bytes.hex()`: two lowercase hex digits per byte. -/
def bytesToHex (bs : List Nat) : String :=
  String.mk (bs.flatMap (fun b => [hexDigitChar (b / 16), hexDigitChar (b % 16)]))

theorem toLEBytes_length : ∀ (w n : Nat), (toLEBytes w n).length = w
  | 0, _ => rfl
  | w + 1, n => by simp [toLEBytes, toLEBytes_length w]

theorem fromLEBytes_toLEBytes : ∀ (w n : Nat),
    fromLEBytes (toLEBytes w n) = n % 2 ^ (8 * w)
  | 0, n => by simp [toLEBytes, fromLEBytes, Nat.mod_one]
  | w + 1, n => by
    have h : (2 : Nat) ^ (8 * (w + 1)) = 256 * 2 ^ (8 * w) := by ring
    rw [toLEBytes, fromLEBytes, fromLEBytes_toLEBytes w, h, Nat.mod_mul]

theorem hexDigitVal_none_of_space {c : Char} (h : isPySpace c = true) :
    hexDigitVal c = none := by
  have hc : c = ' ' ∨ c = '\t' ∨ c = '\n' ∨ c = '\x0b' ∨ c = '\x0c' ∨ c = '\r' := by
    simpa [isPySpace, or_assoc] using h
  rcases hc with rfl | rfl | rfl | rfl | rfl | rfl <;> decide

theorem isPySpace_eq_false_of_digit {c : Char} (h : (hexDigitVal c).isSome) :
    isPySpace c = false := by
  cases hsp : isPySpace c
  · rfl
  · rw [hexDigitVal_none_of_space hsp] at h
    simp at h

/-- Every decoded byte consumes two characters, and skipped whitespace can
only add to the character count. -/
theorem fromhexChars_le_length : ∀ (l : List Char) (bs : List Nat),
    fromhexChars l = some bs → 2 * bs.length ≤ l.length
  | [], bs, h => by
    simp only [fromhexChars, Option.some.injEq] at h
    simp [← h]
  | [c], bs, h => by
    rw [fromhexChars] at h
    by_cases hsp : isPySpace c
    · rw [if_pos hsp] at h
      simp only [fromhexChars, Option.some.injEq] at h
      simp [← h]
    · rw [if_neg hsp] at h
      cases hv : hexDigitVal c with
      | none => rw [hv] at h; exact absurd h (by simp)
      | some v => rw [hv] at h; exact absurd h (by simp)
  | c1 :: c2 :: rest, bs, h => by
    rw [fromhexChars] at h
    by_cases hsp : isPySpace c1
    · rw [if_pos hsp] at h
      have := fromhexChars_le_length (c2 :: rest) bs h
      simp only [List.length_cons] at this ⊢
      omega
    · rw [if_neg hsp] at h
      cases hv1 : hexDigitVal c1 with
      | none => simp [hv1] at h
      | some v1 =>
        cases hv2 : hexDigitVal c2 with
        | none => simp [hv1, hv2] at h
        | some v2 =>
          simp only [hv1, hv2] at h
          rcases Option.map_eq_some'.mp h with ⟨tl, htl, rfl⟩
          have := fromhexChars_le_length rest tl htl
          simp only [List.length_cons]
          omega

/-- On whitespace-free hex-digit strings every character is consumed in a
pair, so the length is exactly twice the byte count. -/
theorem fromhexChars_digits_length : ∀ (l : List Char) (bs : List Nat),
    (∀ c ∈ l, (hexDigitVal c).isSome) → fromhexChars l = some bs →
    l.length = 2 * bs.length
  | [], bs, _, h => by
    simp only [fromhexChars, Option.some.injEq] at h
    simp [← h]
  | [c], bs, hall, h => by
    have hd := hall c (by simp)
    have hns : ¬(isPySpace c = true) := by
      rw [isPySpace_eq_false_of_digit hd]
      simp
    rw [fromhexChars, if_neg hns] at h
    rcases Option.isSome_iff_exists.mp hd with ⟨v, hv⟩
    rw [hv] at h
    exact absurd h (by simp)
  | c1 :: c2 :: rest, bs, hall, h => by
    have hd1 := hall c1 (by simp)
    have hd2 := hall c2 (by simp)
    have hns : ¬(isPySpace c1 = true) := by
      rw [isPySpace_eq_false_of_digit hd1]
      simp
    rw [fromhexChars, if_neg hns] at h
    rcases Option.isSome_iff_exists.mp hd1 with ⟨v1, hv1⟩
    rcases Option.isSome_iff_exists.mp hd2 with ⟨v2, hv2⟩
    simp only [hv1, hv2] at h
    rcases Option.map_eq_some'.mp h with ⟨tl, htl, rfl⟩
    have := fromhexChars_digits_length rest tl
      (fun c hc => hall c (by simp [hc])) htl
    simp only [List.length_cons]
    omega

/-- A whitespace-free hex-digit string of even length always decodes. -/
theorem fromhexChars_digits_isSome : ∀ l : List Char,
    (∀ c ∈ l, (hexDigitVal c).isSome) → l.length % 2 = 0 →
    (fromhexChars l).isSome
  | [], _, _ => rfl
  | [c], _, hlen => by simp at hlen
  | c1 :: c2 :: rest, hall, hlen => by
    have hd1 := hall c1 (by simp)
    have hd2 := hall c2 (by simp)
    have hns : ¬(isPySpace c1 = true) := by
      rw [isPySpace_eq_false_of_digit hd1]
      simp
    rw [fromhexChars, if_neg hns]
    rcases Option.isSome_iff_exists.mp hd1 with ⟨v1, hv1⟩
    rcases Option.isSome_iff_exists.mp hd2 with ⟨v2, hv2⟩
    have hr := fromhexChars_digits_isSome rest
      (fun c hc => hall c (by simp [hc]))
      (by simp only [List.length_cons] at hlen; omega)
    rcases Option.isSome_iff_exists.mp hr with ⟨tl, htl⟩
    simp only [hv1, hv2, htl]
    rfl

/-- Decoding a `'0'`-only character list yields zero bytes. -/
theorem fromhexChars_replicate_zero :
    ∀ k, fromhexChars (List.replicate (2 * k) '0') = some (List.replicate k 0)
  | 0 => rfl
  | k + 1 => by
    rw [show 2 * (k + 1) = 2 * k + 1 + 1 by ring, List.replicate_succ,
      List.replicate_succ, List.replicate_succ, fromhexChars, if_neg (by decide)]
    simp only [show hexDigitVal '0' = some 0 from by decide,
      fromhexChars_replicate_zero k, Option.map_some']

/-- Decoding splits over a successfully decoded prefix: `bytes.fromhex`
resumes after it with the remaining characters. -/
theorem fromhexChars_append : ∀ (l1 l2 : List Char) (b1 : List Nat),
    fromhexChars l1 = some b1 →
    fromhexChars (l1 ++ l2) = (fromhexChars l2).map fun b2 => b1 ++ b2
  | [], l2, b1, h => by
    simp only [fromhexChars, Option.some.injEq] at h
    subst h
    show fromhexChars l2 = _
    cases fromhexChars l2 <;> simp
  | [c], l2, b1, h => by
    rw [fromhexChars] at h
    by_cases hsp : isPySpace c
    · rw [if_pos hsp] at h
      simp only [fromhexChars, Option.some.injEq] at h
      subst h
      show fromhexChars (c :: l2) = _
      rw [fromhexChars, if_pos hsp]
      cases fromhexChars l2 <;> simp
    · rw [if_neg hsp] at h
      cases hv : hexDigitVal c with
      | none => simp [hv] at h
      | some v => simp [hv] at h
  | c1 :: c2 :: rest, l2, b1, h => by
    rw [fromhexChars] at h
    by_cases hsp : isPySpace c1
    · rw [if_pos hsp] at h
      have hrec := fromhexChars_append (c2 :: rest) l2 b1 h
      show fromhexChars (c1 :: (c2 :: rest ++ l2)) = _
      rw [fromhexChars, if_pos hsp]
      exact hrec
    · rw [if_neg hsp] at h
      cases hv1 : hexDigitVal c1 with
      | none => simp [hv1] at h
      | some v1 =>
        cases hv2 : hexDigitVal c2 with
        | none => simp [hv1, hv2] at h
        | some v2 =>
          simp only [hv1, hv2] at h
          rcases Option.map_eq_some'.mp h with ⟨tl, htl, rfl⟩
          have hrec := fromhexChars_append rest l2 tl htl
          show fromhexChars (c1 :: c2 :: (rest ++ l2)) = _
          rw [fromhexChars, if_neg hsp]
          simp only [hv1, hv2, hrec]
          cases fromhexChars l2 <;> simp


/-! ### The temporal-lock encoder (`immune_service._scale_encode_temporal_lock`)

```python
def _scale_encode_temporal_lock(puzzle: dict) -> bytes:
    reveal_time = int(puzzle.get('reveal_time', 0))
    depth = int(puzzle.get('hash_chain_depth', 0))
    initial_hash_hex = puzzle.get('initial_hash', '')
    if initial_hash_hex.startswith('0x'):
        initial_hash_hex = initial_hash_hex[2:]
    initial_hash = bytes.fromhex(initial_hash_hex.ljust(64, '0'))[:32]
    b = struct.pack('<Q', reveal_time) + struct.pack('<I', depth) + initial_hash
    return b
```

A raised Python exception becomes `Except.error`: `bytes.fromhex` raises
`ValueError` (line 146 runs first), `struct.pack` raises `struct.error`
(line 148).  The HTTP handler catches either and reports `encode_failed`. -/

inductive EncError where
  | valueError
  | structError
deriving Repr, DecidableEq

/-- The `temporal_lock` JSON object; `none` is a missing key, for which
`dict.get` substitutes the shown default. -/
structure Puzzle where
  reveal_time : Option Int
  hash_chain_depth : Option Int
  initial_hash : Option String
deriving Repr, DecidableEq

/-- Lines 143–145 of `immune_service.py`: `if initial_hash_hex.startswith('0x'):
initial_hash_hex = initial_hash_hex[2:]`. -/
def strip0x (s : String) : String :=
  if pyStartsWith s "0x" then pyDrop s 2 else s

/-- Lines 142–146 of `immune_service.py`: strip an optional `0x` prefix,
right-pad with `'0'` to 64 hex digits, decode, keep the first 32 bytes. -/
def decode_initial_hash (s : String) : Option (List Nat) :=
  (fromhex (ljust (strip0x s) 64 '0')).map (List.take 32)

def _scale_encode_temporal_lock (p : Puzzle) : Except EncError (List Nat) :=
  let reveal_time := p.reveal_time.getD 0
  let depth := p.hash_chain_depth.getD 0
  let initial_hash_hex := p.initial_hash.getD ""
  match decode_initial_hash initial_hash_hex with
  | none => .error .valueError
  | some initial_hash =>
    match packU64LE reveal_time with
    | none => .error .structError
    | some b1 =>
      match packU32LE depth with
      | none => .error .structError
      | some b2 => .ok (b1 ++ b2 ++ initial_hash)

/-- Handler `POST /encode_temporal_lock` (`handle_encode_temporal_lock`): runs the
encoder, returning `scale_hex` on success and a 500 `encode_failed` response
when the encoder raises.  (The `scale_b64` field and the JSON-parsing 400
path are orthogonal renderings of the same bytes and are not modelled.) -/
def handle_encode_temporal_lock (p : Puzzle) : Except (Nat × String) String :=
  match _scale_encode_temporal_lock p with
  | .error _ => .error (500, "encode_failed")
  | .ok encoded => .ok ("0x" ++ bytesToHex encoded)

/-! ### JSON serialization (`json.dumps(..., separators=(',', ':'), sort_keys=True)`)

The payload dictionary built by `_compact_block_payload_bitcoin` only holds
strings, integers, `None` and lists of strings, so the JSON value type is
specialised to exactly those shapes.  String escaping follows CPython's
default `ensure_ascii=True` encoder: `"` and `\` get a backslash escape,
printable ASCII is emitted verbatim, the five short control escapes are
used where they exist, and everything else becomes `\uXXXX` (a surrogate
pair above `0xFFFF`). -/

inductive JVal where
  | null
  | int (n : Int)
  | str (s : String)
  | strList (xs : List String)
deriving Repr, DecidableEq

def hex4 (n : Nat) : String :=
  String.mk [hexDigitChar (n / 4096 % 16), hexDigitChar (n / 256 % 16),
    hexDigitChar (n / 16 % 16), hexDigitChar (n % 16)]

def jsonEscapeChar (c : Char) : String :=
  if c = '"' then "\\\""
  else if c = '\\' then "\\\\"
  else if 0x20 ≤ c.toNat ∧ c.toNat ≤ 0x7e then String.mk [c]
  else if c.toNat = 8 then "\\b"
  else if c.toNat = 9 then "\\t"
  else if c.toNat = 10 then "\\n"
  else if c.toNat = 12 then "\\f"
  else if c.toNat = 13 then "\\r"
  else if c.toNat < 0x10000 then "\\u" ++ hex4 c.toNat
  else "\\u" ++ hex4 (0xd800 + (c.toNat - 0x10000) / 0x400) ++
    "\\u" ++ hex4 (0xdc00 + (c.toNat - 0x10000) % 0x400)

def jsonQuote (s : String) : String :=
  "\"" ++ String.join (s.data.map jsonEscapeChar) ++ "\""

def dumpsVal : JVal → String
  | .null => "null"
  | .int n => toString n
  | .str s => jsonQuote s
  | .strList xs => "[" ++ String.intercalate "," (xs.map jsonQuote) ++ "]"

/-- Key comparison used by `sort_keys=True`. -/
def keyLe (a b : String × JVal) : Prop := pyLe a.1 b.1

instance keyLe.decRel : DecidableRel keyLe := fun a b => pyLe.decRel a.1 b.1

/-- Models `json.dumps(dict, separators=(',', ':'), sort_keys=True)`: entries sorted
by key, compact separators, no whitespace. -/
def json_dumps_sorted (kvs : List (String × JVal)) : String :=
  "\x7b" ++ String.intercalate ","
    ((List.insertionSort keyLe kvs).map fun kv => jsonQuote kv.1 ++ ":" ++ dumpsVal kv.2) ++ "\x7d"

/-! ### The canonical payload encoder (`mirror_service._compact_block_payload_bitcoin`)

```python
def _compact_block_payload_bitcoin(block):
    height = block.get('height')
    bhash = block.get('hash')
    btime = block.get('time')
    tx = block.get('tx', [])
    tx_sorted = sorted(tx)
    payload = {'chain': 'bitcoin', 'height': height, 'hash': bhash,
               'time': btime, 'tx_count': len(tx_sorted), 'tx': tx_sorted}
    return json.dumps(payload, separators=(',', ':'), sort_keys=True).encode()
```

The block dictionary (a raw `getblock` result) is modelled by the fields the
encoder reads plus a possible spoofed `tx_count` key, which the encoder never
reads.  The returned UTF-8 bytes are represented by the `String` itself
(UTF-8 encoding is injective, so byte equality coincides with string
equality). -/

structure BtcBlock where
  height : Option Int
  hash : Option String
  time : Option Int
  tx : List String
  /-- a `tx_count` key possibly present in the input dictionary; never read
  by the encoder, which derives the count from `len(tx_sorted)` instead. -/
  tx_count : Option Int
deriving Repr, DecidableEq

def jOptInt : Option Int → JVal
  | none => .null
  | some n => .int n

def jOptStr : Option String → JVal
  | none => .null
  | some s => .str s

/-- Source line `tx_sorted = sorted(tx)`. -/
def tx_sorted (b : BtcBlock) : List String := pySorted b.tx

/-- The `payload` dictionary, in source insertion order. -/
def payload_dict (b : BtcBlock) : List (String × JVal) :=
  [("chain", .str "bitcoin"),
   ("height", jOptInt b.height),
   ("hash", jOptStr b.hash),
   ("time", jOptInt b.time),
   ("tx_count", .int (tx_sorted b).length),
   ("tx", .strList (tx_sorted b))]

def _compact_block_payload_bitcoin (b : BtcBlock) : String :=
  json_dumps_sorted (payload_dict b)

/-! ### The mirror store and service handlers (`mirror_service.py`)

The `mirrors` SQLite table is a list of rows plus the auto-increment
counter.  `INSERT` appends a row carrying the next identifier;
no handler in the source issues `UPDATE` or `DELETE` on `mirrors`. -/

structure MirrorRow where
  id : Nat
  chain : String
  block_number : Option Int
  block_hash : Option String
  merkle_root : String
  timestamp : Int
  payload : String
deriving Repr, DecidableEq

structure MirrorDB where
  rows : List MirrorRow
  nextId : Nat
deriving Repr, DecidableEq

/-- Function `store_mirror_entry`: `INSERT INTO mirrors ...` with `timestamp =
time.time()` passed in as `now` (the wall clock is a parameter of the
embedding).  The stored `payload` column is the canonical payload text. -/
def store_mirror_entry (db : MirrorDB) (chain : String) (block_number : Option Int)
    (block_hash : Option String) (merkle_root : String) (now : Int)
    (payload : String) : MirrorDB :=
  { rows := db.rows ++
      [{ id := db.nextId, chain := chain, block_number := block_number,
         block_hash := block_hash, merkle_root := merkle_root,
         timestamp := now, payload := payload }],
    nextId := db.nextId + 1 }

/-- Query `SELECT ... FROM mirrors WHERE id = ?` followed by `fetchone()`. -/
def getMirror (db : MirrorDB) (mid : Nat) : Option MirrorRow :=
  db.rows.find? fun r => r.id == mid

/-- One `GET /mirrors` summary row (the `SELECT` omits `payload`). -/
structure MirrorSummary where
  id : Nat
  chain : String
  block_number : Option Int
  block_hash : Option String
  merkle_root : String
  timestamp : Int
deriving Repr, DecidableEq

def idDesc (a b : MirrorRow) : Prop := b.id ≤ a.id

instance idDesc.decRel : DecidableRel idDesc := fun a b =>
  inferInstanceAs (Decidable (b.id ≤ a.id))

/-- Handler `GET /mirrors`: `ORDER BY id DESC LIMIT 100`; reads only, returning the
store unchanged. -/
def list_mirrors (db : MirrorDB) : List MirrorSummary × MirrorDB :=
  (((List.insertionSort idDesc db.rows).take 100).map fun r =>
    { id := r.id, chain := r.chain, block_number := r.block_number,
      block_hash := r.block_hash, merkle_root := r.merkle_root,
      timestamp := r.timestamp }, db)

/-- Errors raised by `fetch_bitcoin_block_once`: `RuntimeError` when
`BITCOIN_RPC_URL` is unset, transport errors from the two `requests.post`
JSON-RPC calls. -/
inductive FetchError where
  | configError (msg : String)
  | transportError (msg : String)
deriving Repr, DecidableEq

/-- Python `str(e)` as used by the handler's `except` clause. -/
def FetchError.message : FetchError → String
  | .configError m => m
  | .transportError m => m

/-- Inputs of one `fetch_bitcoin_block_once` call that the embedding cannot
compute: the environment configuration and the outcome of the two JSON-RPC
network round-trips (`Except` error = a raised `requests` exception). -/
structure FetchCtx where
  mock : Bool
  rpc_url : Option String
  rpcOutcome : Except String BtcBlock
  /-- Value of `int(time.time())` read in mock mode. -/
  now : Int

/-- Function `fetch_bitcoin_block_once`, with the single-SHA-256 hex digest `H1`
(`hashlib.sha256(...).hexdigest()`) as a parameter. -/
def fetch_bitcoin_block_once (H1 : String → String) (ctx : FetchCtx) :
    Except FetchError BtcBlock :=
  if ctx.mock then
    .ok { height := some (ctx.now % 1000000),
          hash := some (H1 ("block-" ++ toString ctx.now)),
          time := some ctx.now,
          tx := (List.range' 1 5).map fun i =>
            H1 ("tx-" ++ toString ctx.now ++ "-" ++ toString i),
          tx_count := none }
  else
    match ctx.rpc_url with
    | none => .error (.configError "BITCOIN_RPC_URL not set")
    | some _ =>
      match ctx.rpcOutcome with
      | .error msg => .error (.transportError msg)
      | .ok block => .ok block

/-- Handler `POST /mirror/bitcoin/fetch` (`trigger_bitcoin_fetch`): fetch, then
canonicalize, then commit the anchor `Hd payload` (`Hd` is the double-SHA-256
hex digest `_sha256d`), then append; any fetch failure is returned as a
status-500 error with `str(e)` and the store is untouched. -/
def trigger_bitcoin_fetch (H1 Hd : String → String) (ctx : FetchCtx)
    (nowStore : Int) (db : MirrorDB) : Except (Nat × String) String × MirrorDB :=
  match fetch_bitcoin_block_once H1 ctx with
  | .error e => (.error (500, e.message), db)
  | .ok block =>
    let payload := _compact_block_payload_bitcoin block
    let merkle_root := Hd payload
    (.ok merkle_root,
      store_mirror_entry db "bitcoin" block.height block.hash merkle_root nowStore payload)

/-- The successful `GET /mirror/{id}/temporal` response body (the
`scale_b64` field is an orthogonal rendering of the same bytes and is not
modelled). -/
structure TemporalResp where
  scale_hex : String
  puzzle : Puzzle
deriving Repr, DecidableEq

/-- Handler `GET /mirror/{id}/temporal` (`mirror_temporal_lock`): look the row up,
derive the puzzle `{timestamp + 300, 1000, merkle_root}`, encode it.  The
handler only issues a `SELECT`, so the store comes back unchanged; an
encoder exception would escape the handler (aiohttp's 500). -/
def mirror_temporal_lock (db : MirrorDB) (mid : Nat) :
    Except (Nat × String) TemporalResp × MirrorDB :=
  match getMirror db mid with
  | none => (.error (404, "not found"), db)
  | some row =>
    let reveal_time := row.timestamp + 300
    let puzzle : Puzzle :=
      { reveal_time := some reveal_time, hash_chain_depth := some 1000,
        initial_hash := some row.merkle_root }
    match _scale_encode_temporal_lock puzzle with
    | .error _ => (.error (500, "Internal Server Error"), db)
    | .ok encoded => (.ok { scale_hex := "0x" ++ bytesToHex encoded, puzzle := puzzle }, db)

/-! ### Supporting lemmas -/

theorem ljust_of_le {s : String} {w : Nat} (c : Char) (h : w ≤ s.data.length) :
    ljust s w c = s := by
  rw [ljust, Nat.sub_eq_zero_of_le h, List.replicate_zero, List.append_nil]

theorem ljust_data (s : String) (w : Nat) (c : Char) :
    (ljust s w c).data = s.data ++ List.replicate (w - s.data.length) c := rfl

theorem strip0x_append_0x (s : String) : strip0x ("0x" ++ s) = s := by
  have h : pyStartsWith ("0x" ++ s) "0x" = true := by
    show strStartsWith ('0' :: 'x' :: s.data) ['0', 'x'] = true
    simp [strStartsWith]
  rw [strip0x, h]
  simp [pyDrop]

theorem strip0x_of_not_0x {s : String} (h : pyStartsWith s "0x" = false) :
    strip0x s = s := by
  rw [strip0x, h]
  simp

theorem mem_of_strStartsWith_0x : ∀ l : List Char,
    strStartsWith l ['0', 'x'] = true → 'x' ∈ l
  | [], h => by simp [strStartsWith] at h
  | [c], h => by simp [strStartsWith] at h
  | c1 :: c2 :: rest, h => by
    simp only [strStartsWith, Bool.and_eq_true, decide_eq_true_eq] at h
    simp [h.2.1]

/-- A string of hex digits cannot start with `0x` (`x` is not a hex digit),
so the prefix strip leaves it unchanged. -/
theorem strip0x_of_all_hex {s : String}
    (h : ∀ c ∈ s.data, (hexDigitVal c).isSome) : strip0x s = s := by
  rcases hsw : pyStartsWith s "0x" with _ | _
  · exact strip0x_of_not_0x hsw
  · have hx : 'x' ∈ s.data := mem_of_strStartsWith_0x s.data hsw
    have := h 'x' hx
    simp [hexDigitVal] at this

theorem packU64LE_of_range {n : Int} (h0 : 0 ≤ n) (h1 : n < 2 ^ 64) :
    packU64LE n = some (toLEBytes 8 n.toNat) := by
  rw [packU64LE, if_pos ⟨h0, h1⟩]

theorem packU32LE_of_range {n : Int} (h0 : 0 ≤ n) (h1 : n < 2 ^ 32) :
    packU32LE n = some (toLEBytes 4 n.toNat) := by
  rw [packU32LE, if_pos ⟨h0, h1⟩]

/-- Sufficient condition for the hash-field normalization to succeed: after
the `0x` strip every character is a hex digit and the string is either short
enough to be padded to 64 digits or of even length.  (This is not necessary:
`bytes.fromhex` also accepts ASCII whitespace between byte pairs.) -/
theorem decode_initial_hash_isSome_of_digits {s : String}
    (hall : ∀ c ∈ (strip0x s).data, (hexDigitVal c).isSome)
    (hlen : (strip0x s).length ≤ 64 ∨ (strip0x s).length % 2 = 0) :
    (decode_initial_hash s).isSome := by
  rw [decode_initial_hash]
  rw [show (Option.map (List.take 32) (fromhex (ljust (strip0x s) 64 '0'))).isSome =
    (fromhex (ljust (strip0x s) 64 '0')).isSome by
      cases fromhex (ljust (strip0x s) 64 '0') <;> rfl]
  rw [show fromhex (ljust (strip0x s) 64 '0') =
    fromhexChars ((strip0x s).data ++ List.replicate (64 - (strip0x s).data.length) '0')
    from rfl]
  apply fromhexChars_digits_isSome
  · intro c hc
    rcases List.mem_append.mp hc with hc | hc
    · exact hall c hc
    · rw [List.eq_of_mem_replicate hc]
      decide
  · rw [List.length_append, List.length_replicate]
    have : (strip0x s).data.length ≤ 64 ∨ (strip0x s).data.length % 2 = 0 := hlen
    omega

/-- When the hash field decodes and both integers are in range, the encoder
succeeds. -/
theorem scale_encode_ok_of {p : Puzzle}
    (hdec : (decode_initial_hash (p.initial_hash.getD "")).isSome)
    (hrt0 : 0 ≤ p.reveal_time.getD 0) (hrt : p.reveal_time.getD 0 < 2 ^ 64)
    (hd0 : 0 ≤ p.hash_chain_depth.getD 0)
    (hd : p.hash_chain_depth.getD 0 < 2 ^ 32) :
    ∃ bs, _scale_encode_temporal_lock p = .ok bs := by
  rcases Option.isSome_iff_exists.mp hdec with ⟨ih, hih⟩
  rw [show _scale_encode_temporal_lock p =
    (match decode_initial_hash (p.initial_hash.getD "") with
      | none => .error .valueError
      | some initial_hash =>
        match packU64LE (p.reveal_time.getD 0) with
        | none => .error .structError
        | some b1 =>
          match packU32LE (p.hash_chain_depth.getD 0) with
          | none => .error .structError
          | some b2 => Except.ok (b1 ++ b2 ++ initial_hash)) from rfl]
  rw [hih, packU64LE_of_range hrt0 hrt, packU32LE_of_range hd0 hd]
  exact ⟨_, rfl⟩

/-! ### Claim theorems: the temporal-lock encoder -/

/-- C1: for in-range `reveal_time` and `hash_chain_depth` and a valid hex
`initial_hash` (64 hex digits after the optional `0x` strip, decoding to
the 32-byte value `hb`), the encoder returns exactly 44 bytes: bytes 0–7
are `reveal_time` as unsigned 64-bit little-endian, bytes 8–11 are
`hash_chain_depth` as unsigned 32-bit little-endian, bytes 12–43 are the 32
decoded hash bytes. -/
theorem scale_encode_layout (rt d : Int) (s : String) (hb : List Nat)
    (hrt0 : 0 ≤ rt) (hrt : rt < 2 ^ 64) (hd0 : 0 ≤ d) (hd : d < 2 ^ 32)
    (hlen : (strip0x s).length = 64) (hhex : fromhex (strip0x s) = some hb)
    (hb32 : hb.length = 32) :
    ∃ bs, _scale_encode_temporal_lock ⟨some rt, some d, some s⟩ = .ok bs ∧
      bs.length = 44 ∧
      bs.take 8 = toLEBytes 8 rt.toNat ∧ fromLEBytes (bs.take 8) = rt.toNat ∧
      (bs.drop 8).take 4 = toLEBytes 4 d.toNat ∧
      fromLEBytes ((bs.drop 8).take 4) = d.toNat ∧
      bs.drop 12 = hb := by
  have hdlen : (strip0x s).data.length = 64 := hlen
  have hlj : ljust (strip0x s) 64 '0' = strip0x s := ljust_of_le '0' (by omega)
  have hdec : decode_initial_hash s = some hb := by
    rw [decode_initial_hash, hlj, hhex, Option.map_some', List.take_of_length_le (by omega)]
  have hrtn : rt.toNat < 2 ^ 64 := by omega
  have hdn : d.toNat < 2 ^ 32 := by omega
  refine ⟨toLEBytes 8 rt.toNat ++ toLEBytes 4 d.toNat ++ hb, ?_, ?_, ?_, ?_, ?_, ?_, ?_⟩
  · rw [show _scale_encode_temporal_lock ⟨some rt, some d, some s⟩ =
      (match decode_initial_hash s with
        | none => .error .valueError
        | some initial_hash =>
          match packU64LE rt with
          | none => .error .structError
          | some b1 =>
            match packU32LE d with
            | none => .error .structError
            | some b2 => Except.ok (b1 ++ b2 ++ initial_hash)) from rfl]
    rw [hdec, packU64LE_of_range hrt0 hrt, packU32LE_of_range hd0 hd]
  · simp [toLEBytes_length, hb32]
  · rw [List.append_assoc, List.take_left' (toLEBytes_length 8 rt.toNat)]
  · rw [List.append_assoc, List.take_left' (toLEBytes_length 8 rt.toNat),
      fromLEBytes_toLEBytes, Nat.mod_eq_of_lt hrtn]
  · rw [List.append_assoc, List.drop_left' (toLEBytes_length 8 rt.toNat),
      List.take_left' (toLEBytes_length 4 d.toNat)]
  · rw [List.append_assoc, List.drop_left' (toLEBytes_length 8 rt.toNat),
      List.take_left' (toLEBytes_length 4 d.toNat),
      fromLEBytes_toLEBytes, Nat.mod_eq_of_lt hdn]
  · rw [List.drop_left']
    rw [List.length_append, toLEBytes_length, toLEBytes_length]

/-- C1 witness: encoding `{reveal_time: 1670000000, hash_chain_depth: 1000,
initial_hash: "0x" + "ab"*32}` yields 44 bytes whose first 8 bytes decode
little-endian to 1670000000, next 4 to 1000, and last 32 are all `0xAB`. -/
theorem scale_encode_layout_witness :
    ∃ bs, _scale_encode_temporal_lock
        ⟨some 1670000000, some 1000,
          some "0xabababababababababababababababababababababababababababababababab"⟩ =
        .ok bs ∧
      bs.length = 44 ∧
      bs.take 8 = toLEBytes 8 (Int.toNat 1670000000) ∧
      fromLEBytes (bs.take 8) = Int.toNat 1670000000 ∧
      (bs.drop 8).take 4 = toLEBytes 4 (Int.toNat 1000) ∧
      fromLEBytes ((bs.drop 8).take 4) = Int.toNat 1000 ∧
      bs.drop 12 = List.replicate 32 171 :=
  scale_encode_layout 1670000000 1000
    "0xabababababababababababababababababababababababababababababababab"
    (List.replicate 32 171)
    (by decide) (by decide) (by decide) (by decide) (by decide) (by decide) (by decide)

set_option maxRecDepth 10000 in
/-- C6: the hash-field normalization strips an optional `0x` prefix, right-
pads with ASCII `'0'` to 64 hex digits when shorter, and truncates the
decoded bytes to the first 32; `"0x1234"` decodes to `0x12 0x34` followed by
thirty zero bytes, also through the full encoder.  Conjunct 4 states the
padding semantics for even-length inputs: the decoded bytes are extended
with `(64 - len)/2` zero bytes. -/
theorem decode_initial_hash_normalization :
    decode_initial_hash "0x1234" = some (18 :: 52 :: List.replicate 30 0) ∧
    (∀ s : String, pyStartsWith s "0x" = false →
      decode_initial_hash ("0x" ++ s) = decode_initial_hash s) ∧
    (∀ (s : String) (bs : List Nat), pyStartsWith s "0x" = false →
      64 ≤ s.length → fromhex s = some bs →
      decode_initial_hash s = some (bs.take 32)) ∧
    (∀ (s : String) (bs : List Nat), pyStartsWith s "0x" = false →
      s.length ≤ 64 → s.length % 2 = 0 → fromhex s = some bs →
      decode_initial_hash s =
        some (bs ++ List.replicate ((64 - s.length) / 2) 0)) ∧
    _scale_encode_temporal_lock ⟨some 0, some 0, some "0x1234"⟩ =
      .ok (toLEBytes 8 0 ++ toLEBytes 4 0 ++ (18 :: 52 :: List.replicate 30 0)) := by
  refine ⟨by decide, ?_, ?_, ?_, rfl⟩
  · intro s h
    rw [decode_initial_hash, decode_initial_hash, strip0x_append_0x, strip0x_of_not_0x h]
  · intro s bs h h64 hfh
    rw [decode_initial_hash, strip0x_of_not_0x h, ljust_of_le '0' h64, hfh,
      Option.map_some']
  · intro s bs h hle heven hfh
    have hL : s.length = s.data.length := rfl
    have hbslen := fromhexChars_le_length s.data bs hfh
    rw [decode_initial_hash, strip0x_of_not_0x h]
    rw [show fromhex (ljust s 64 '0') =
      fromhexChars (s.data ++ List.replicate (64 - s.data.length) '0') from rfl]
    rw [show List.replicate (64 - s.data.length) '0' =
      List.replicate (2 * ((64 - s.length) / 2)) '0' by congr 1; omega]
    rw [fromhexChars_append s.data _ bs hfh, fromhexChars_replicate_zero]
    simp only [Option.map_some']
    congr 1
    refine List.take_of_length_le ?_
    rw [List.length_append, List.length_replicate]
    omega

set_option maxRecDepth 10000 in
/-- C6 witness: conjuncts 2–4 instantiated at `"1234"` (strip, short-pad)
and at a 66-hex-digit string (truncation to 32 bytes). -/
theorem decode_initial_hash_normalization_witness :
    decode_initial_hash ("0x" ++ "1234") = decode_initial_hash "1234" ∧
    decode_initial_hash "ababababababababababababababababababababababababababababababababab" =
      some ((List.replicate 33 171).take 32) ∧
    decode_initial_hash "1234" = some ([18, 52] ++ List.replicate ((64 - 4) / 2) 0) :=
  ⟨decode_initial_hash_normalization.2.1 "1234" (by decide),
   decode_initial_hash_normalization.2.2.1
     "ababababababababababababababababababababababababababababababababab"
     (List.replicate 33 171) (by decide) (by decide) (by decide),
   decode_initial_hash_normalization.2.2.2.1 "1234" [18, 52]
     (by decide) (by decide) (by decide) (by decide)⟩

set_option maxRecDepth 10000 in
/-- C10 counterexample: the claim says every puzzle with absent fields
encodes to exactly 44 bytes.  With `reveal_time` and `hash_chain_depth`
absent and `initial_hash = "ab  cd"`, `bytes.fromhex` skips the two spaces
in the padded 64-character string, decodes only 31 bytes, and the encoder
succeeds with a 43-byte result. -/
theorem scale_encode_whitespace_counterexample :
    _scale_encode_temporal_lock ⟨none, none, some "ab  cd"⟩ =
      .ok (toLEBytes 8 0 ++ toLEBytes 4 0 ++ ([171, 205] ++ List.replicate 29 0)) ∧
    (toLEBytes 8 0 ++ toLEBytes 4 0 ++
      ([171, 205] ++ List.replicate 29 0)).length = 43 := by
  constructor
  · rfl
  · decide

set_option maxRecDepth 10000 in
/-- C10 (amended): a missing `reveal_time` or `hash_chain_depth` is encoded
as `0` and a missing `initial_hash` is treated as the empty string
(conjuncts 1–3: `dict.get` defaults); the all-defaults puzzle (an empty
JSON object) encodes successfully to exactly 44 zero bytes, and `POST
/encode_temporal_lock` with an empty object answers success with 88 zero
hex digits rather than a malformed-input error.  (A successful encoding is
not always 44 bytes: an `initial_hash` containing ASCII whitespace decodes
to fewer than 32 hash bytes — see the counterexample.) -/
theorem scale_encode_missing_defaults :
    (∀ (d : Option Int) (h : Option String),
      _scale_encode_temporal_lock ⟨none, d, h⟩ =
        _scale_encode_temporal_lock ⟨some 0, d, h⟩) ∧
    (∀ (r : Option Int) (h : Option String),
      _scale_encode_temporal_lock ⟨r, none, h⟩ =
        _scale_encode_temporal_lock ⟨r, some 0, h⟩) ∧
    (∀ r d : Option Int,
      _scale_encode_temporal_lock ⟨r, d, none⟩ =
        _scale_encode_temporal_lock ⟨r, d, some ""⟩) ∧
    _scale_encode_temporal_lock ⟨none, none, none⟩ = .ok (List.replicate 44 0) ∧
    handle_encode_temporal_lock ⟨none, none, none⟩ =
      .ok ("0x" ++ String.mk (List.replicate 88 '0')) :=
  ⟨fun _ _ => rfl, fun _ _ => rfl, fun _ _ => rfl, rfl, rfl⟩

/-! ### Claim theorems: the canonical payload encoder -/

/-- C2: the canonical payload encoder is invariant under permutation of the
transaction-identifier list: two descriptors equal except for the order of
their `tx` lists encode to the same bytes. -/
theorem payload_tx_order_invariant (b : BtcBlock) (tx2 : List String)
    (hperm : List.Perm tx2 b.tx) :
    _compact_block_payload_bitcoin { b with tx := tx2 } =
      _compact_block_payload_bitcoin b := by
  have h : tx_sorted { b with tx := tx2 } = tx_sorted b := pySorted_eq_of_perm hperm
  simp only [_compact_block_payload_bitcoin, payload_dict, h]

/-- C2 witness: swapping the two transactions of a concrete block leaves the
canonical payload unchanged. -/
theorem payload_tx_order_invariant_witness :
    _compact_block_payload_bitcoin ⟨some 1, some "h0", some 2, ["a", "b"], none⟩ =
      _compact_block_payload_bitcoin ⟨some 1, some "h0", some 2, ["b", "a"], none⟩ :=
  payload_tx_order_invariant ⟨some 1, some "h0", some 2, ["b", "a"], none⟩
    ["a", "b"] (by decide)

set_option maxRecDepth 10000 in
/-- C7: the canonical payload is a JSON object over exactly the keys
`chain, height, hash, time, tx_count, tx` (conjunct 3), serialized with the
keys in sorted order (conjunct 4 exhibits the sorted entry list), with the
`tx` list sorted ascending (conjunct 2) and `tx_count` derived as
`len(tx_sorted)` — a spoofed `tx_count` in the input never affects the
encoding (conjunct 1).  Conjunct 5 fixes the exact compact serialization
(sorted keys, no whitespace, derived `tx_count`) on a concrete block whose
input carries the spoofed count 99. -/
theorem payload_canonical_form :
    (∀ (b : BtcBlock) (c : Option Int),
      _compact_block_payload_bitcoin { b with tx_count := c } =
        _compact_block_payload_bitcoin b) ∧
    (∀ b : BtcBlock, List.Sorted pyLe (tx_sorted b)) ∧
    (∀ b : BtcBlock, (payload_dict b).map Prod.fst =
      ["chain", "height", "hash", "time", "tx_count", "tx"]) ∧
    (∀ b : BtcBlock, List.insertionSort keyLe (payload_dict b) =
      [("chain", JVal.str "bitcoin"), ("hash", jOptStr b.hash),
       ("height", jOptInt b.height), ("time", jOptInt b.time),
       ("tx", JVal.strList (tx_sorted b)),
       ("tx_count", JVal.int (tx_sorted b).length)]) ∧
    _compact_block_payload_bitcoin ⟨some 5, some "hh", some 7, ["b", "a"], some 99⟩ =
      "\x7b\"chain\":\"bitcoin\",\"hash\":\"hh\",\"height\":5,\"time\":7,\"tx\":[\"a\",\"b\"],\"tx_count\":2\x7d" := by
  refine ⟨fun b c => rfl, fun b => pySorted_sorted b.tx, fun b => rfl, ?_, ?_⟩
  · intro b
    simp [payload_dict, List.insertionSort, List.orderedInsert, keyLe, pyLe, lexLe]
  · rfl

/-! ### Claim theorems: the mirror service handlers -/

/-- C3: for a stored entry with commit timestamp `T` and anchor hash `H`
(a 64-hex-digit digest), `GET /mirror/{id}/temporal` answers a puzzle with
`reveal_time = T + 300`, `hash_chain_depth = 1000`, `initial_hash = H`, and
hands the store back unchanged — being pure in the store, every call
returns the same response. -/
theorem mirror_temporal_lock_derivation (db : MirrorDB) (mid : Nat)
    (row : MirrorRow) (hfind : getMirror db mid = some row)
    (hts0 : 0 ≤ row.timestamp) (hts : row.timestamp + 300 < 2 ^ 64)
    (hlen : row.merkle_root.length = 64)
    (hhex : ∀ c ∈ row.merkle_root.data, (hexDigitVal c).isSome) :
    ∃ resp, mirror_temporal_lock db mid = (.ok resp, db) ∧
      resp.puzzle =
        ⟨some (row.timestamp + 300), some 1000, some row.merkle_root⟩ := by
  have hstrip : strip0x row.merkle_root = row.merkle_root := strip0x_of_all_hex hhex
  have henc : ∃ bs, _scale_encode_temporal_lock
      ⟨some (row.timestamp + 300), some 1000, some row.merkle_root⟩ = .ok bs := by
    refine scale_encode_ok_of (decode_initial_hash_isSome_of_digits ?_ ?_)
      (by simp; omega) (by simpa using hts) (by simp) (by simp)
    · simpa [hstrip] using hhex
    · simp [hstrip, hlen]
  rcases henc with ⟨bs, hbs⟩
  refine ⟨⟨"0x" ++ bytesToHex bs,
    ⟨some (row.timestamp + 300), some 1000, some row.merkle_root⟩⟩, ?_, rfl⟩
  rw [show mirror_temporal_lock db mid =
    (match getMirror db mid with
      | none => (.error (404, "not found"), db)
      | some row =>
        match _scale_encode_temporal_lock
            ⟨some (row.timestamp + 300), some 1000, some row.merkle_root⟩ with
        | .error _ => (.error (500, "Internal Server Error"), db)
        | .ok encoded =>
          (.ok ⟨"0x" ++ bytesToHex encoded,
            ⟨some (row.timestamp + 300), some 1000, some row.merkle_root⟩⟩, db))
    from rfl]
  rw [hfind]
  simp only [hbs]

/-- C3 witness: a one-row store with timestamp 1000 and an all-`ab` anchor
hash answers the derived puzzle `{1300, 1000, anchor}` without mutation. -/
theorem mirror_temporal_lock_derivation_witness :
    ∃ resp,
      mirror_temporal_lock
        ⟨[⟨1, "bitcoin", some 5, some "bh", "abababababababababababababababababababababababababababababababab", 1000, "p"⟩], 2⟩ 1 =
        (.ok resp,
          ⟨[⟨1, "bitcoin", some 5, some "bh", "abababababababababababababababababababababababababababababababab", 1000, "p"⟩], 2⟩) ∧
      resp.puzzle = ⟨some 1300, some 1000, some "abababababababababababababababababababababababababababababababab"⟩ :=
  mirror_temporal_lock_derivation
    ⟨[⟨1, "bitcoin", some 5, some "bh", "abababababababababababababababababababababababababababababababab", 1000, "p"⟩], 2⟩ 1
    ⟨1, "bitcoin", some 5, some "bh", "abababababababababababababababababababababababababababababababab", 1000, "p"⟩
    (by decide) (by decide) (by decide) (by decide) (by decide)

/-- C4: when the Bitcoin fetch adapter raises, `POST /mirror/bitcoin/fetch`
answers the error (status 500, message `str(e)`) and the store is unchanged,
so a subsequent `GET /mirrors` shows no new entry. -/
theorem trigger_bitcoin_fetch_failure (H1 Hd : String → String) (ctx : FetchCtx)
    (nowStore : Int) (db : MirrorDB) (e : FetchError)
    (hfail : fetch_bitcoin_block_once H1 ctx = .error e) :
    trigger_bitcoin_fetch H1 Hd ctx nowStore db = (.error (500, e.message), db) ∧
    list_mirrors (trigger_bitcoin_fetch H1 Hd ctx nowStore db).2 =
      list_mirrors db := by
  have h : trigger_bitcoin_fetch H1 Hd ctx nowStore db =
      (.error (500, e.message), db) := by
    rw [show trigger_bitcoin_fetch H1 Hd ctx nowStore db =
      (match fetch_bitcoin_block_once H1 ctx with
        | .error e => (.error (500, e.message), db)
        | .ok block =>
          (.ok (Hd (_compact_block_payload_bitcoin block)),
            store_mirror_entry db "bitcoin" block.height block.hash
              (Hd (_compact_block_payload_bitcoin block)) nowStore
              (_compact_block_payload_bitcoin block))) from rfl]
    rw [hfail]
  exact ⟨h, by rw [h]⟩

/-- C4 witness: an unconfigured adapter (one way the fetch can raise) leaves
the empty store empty and surfaces the error. -/
theorem trigger_bitcoin_fetch_failure_witness :
    trigger_bitcoin_fetch id id ⟨false, none, .error "boom", 0⟩ 0 ⟨[], 1⟩ =
      (.error (500, "BITCOIN_RPC_URL not set"), ⟨[], 1⟩) ∧
    list_mirrors (trigger_bitcoin_fetch id id ⟨false, none, .error "boom", 0⟩ 0 ⟨[], 1⟩).2 =
      list_mirrors ⟨[], 1⟩ :=
  trigger_bitcoin_fetch_failure id id ⟨false, none, .error "boom", 0⟩ 0 ⟨[], 1⟩
    (.configError "BITCOIN_RPC_URL not set") rfl

/-- C9 counterexample: with no RPC endpoint configured and mock mode off the
handler answers status **500**, which is not in the 4xx class the claim
requires (`500 < 500` is false). -/
theorem trigger_unconfigured_status_counterexample :
    (trigger_bitcoin_fetch id id ⟨false, none, .error "x", 0⟩ 0 ⟨[], 1⟩).1 =
      .error (500, "BITCOIN_RPC_URL not set") ∧ ¬(500 < 500) :=
  ⟨rfl, by decide⟩

/-- C9 (amended): with no RPC endpoint configured and mock mode off, the
fetch fails with the configuration error `BITCOIN_RPC_URL not set`,
surfaced to the caller as a status-**500** response (not 4xx — the handler
maps every failure to 500), and no mirror entry is appended. -/
theorem trigger_bitcoin_fetch_unconfigured (H1 Hd : String → String)
    (rpcOut : Except String BtcBlock) (now nowStore : Int) (db : MirrorDB) :
    trigger_bitcoin_fetch H1 Hd ⟨false, none, rpcOut, now⟩ nowStore db =
      (.error (500, "BITCOIN_RPC_URL not set"), db) := rfl

/-- Well-formedness of the mirror table: every stored identifier is below
the auto-increment counter.  SQLite guarantees this for `AUTOINCREMENT`
keys; it holds of the empty table and is preserved by every insert. -/
def MirrorDB.WF (db : MirrorDB) : Prop := ∀ r ∈ db.rows, r.id < db.nextId

theorem store_mirror_entry_WF {db : MirrorDB} (h : db.WF) (c : String)
    (bn : Option Int) (bh : Option String) (mr : String) (t : Int) (p : String) :
    (store_mirror_entry db c bn bh mr t p).WF := by
  intro r hr
  rcases List.mem_append.mp hr with hr | hr
  · exact Nat.lt_succ_of_lt (h r hr)
  · rw [List.mem_singleton.mp hr]
    exact Nat.lt_succ_self _

/-- Rows whose identifier is at least the counter are found past the old
rows: lookups of fresh identifiers skip the pre-existing table. -/
theorem getMirror_append_fresh {db : MirrorDB} (hwf : db.WF) {mid : Nat}
    (hge : db.nextId ≤ mid) (l : List MirrorRow) (n : Nat) :
    getMirror ⟨db.rows ++ l, n⟩ mid = getMirror ⟨l, n⟩ mid := by
  simp only [getMirror]
  rw [List.find?_append, List.find?_eq_none.mpr, Option.none_or]
  intro r hr
  simp only [beq_iff_eq]
  have := hwf r hr
  omega

/-- C8: the mirror store is append-only and does not deduplicate.  Two
successful fetches of the same block append two distinct rows with fresh
consecutive identifiers, each independently retrievable by its own
identifier with the expected chain and height; and no handler ever updates
or removes a row — every fetch extends the row list at the end, and the
read handlers return the store unchanged. -/
theorem mirror_store_append_only (H1 Hd : String → String) (ctx1 ctx2 : FetchCtx)
    (t1 t2 : Int) (db : MirrorDB) (blk : BtcBlock) (hwf : db.WF)
    (h1 : fetch_bitcoin_block_once H1 ctx1 = .ok blk)
    (h2 : fetch_bitcoin_block_once H1 ctx2 = .ok blk) :
    (∃ r1 r2 : MirrorRow,
      ((trigger_bitcoin_fetch H1 Hd ctx2 t2
          (trigger_bitcoin_fetch H1 Hd ctx1 t1 db).2).2).rows = db.rows ++ [r1, r2] ∧
      r1.id ≠ r2.id ∧
      getMirror (trigger_bitcoin_fetch H1 Hd ctx2 t2
          (trigger_bitcoin_fetch H1 Hd ctx1 t1 db).2).2 r1.id = some r1 ∧
      getMirror (trigger_bitcoin_fetch H1 Hd ctx2 t2
          (trigger_bitcoin_fetch H1 Hd ctx1 t1 db).2).2 r2.id = some r2 ∧
      r1.chain = "bitcoin" ∧ r2.chain = "bitcoin" ∧
      r1.block_number = blk.height ∧ r2.block_number = blk.height) ∧
    (∀ (ctx : FetchCtx) (t : Int) (db2 : MirrorDB), ∃ tail,
      ((trigger_bitcoin_fetch H1 Hd ctx t db2).2).rows = db2.rows ++ tail) ∧
    (∀ (db2 : MirrorDB) (mid : Nat), (mirror_temporal_lock db2 mid).2 = db2) ∧
    (∀ db2 : MirrorDB, (list_mirrors db2).2 = db2) := by
  have unfold1 : ∀ (ctx : FetchCtx) (t : Int) (db2 : MirrorDB) (b : BtcBlock),
      fetch_bitcoin_block_once H1 ctx = .ok b →
      (trigger_bitcoin_fetch H1 Hd ctx t db2).2 =
        ⟨db2.rows ++ [⟨db2.nextId, "bitcoin", b.height, b.hash,
          Hd (_compact_block_payload_bitcoin b), t,
          _compact_block_payload_bitcoin b⟩], db2.nextId + 1⟩ := by
    intro ctx t db2 b hb
    rw [show trigger_bitcoin_fetch H1 Hd ctx t db2 =
      (match fetch_bitcoin_block_once H1 ctx with
        | .error e => (.error (500, e.message), db2)
        | .ok block =>
          (.ok (Hd (_compact_block_payload_bitcoin block)),
            store_mirror_entry db2 "bitcoin" block.height block.hash
              (Hd (_compact_block_payload_bitcoin block)) t
              (_compact_block_payload_bitcoin block))) from rfl]
    rw [hb]
    rfl
  refine ⟨?_, ?_, ?_, ?_⟩
  · have e2 : (trigger_bitcoin_fetch H1 Hd ctx2 t2
        (trigger_bitcoin_fetch H1 Hd ctx1 t1 db).2).2 =
        ⟨db.rows ++ ([⟨db.nextId, "bitcoin", blk.height, blk.hash,
      Hd (_compact_block_payload_bitcoin blk), t1, _compact_block_payload_bitcoin blk⟩] ++ [⟨db.nextId + 1, "bitcoin", blk.height, blk.hash,
      Hd (_compact_block_payload_bitcoin blk), t2, _compact_block_payload_bitcoin blk⟩]), db.nextId + 2⟩ := by
      rw [unfold1 ctx2 t2 (trigger_bitcoin_fetch H1 Hd ctx1 t1 db).2 blk h2,
        unfold1 ctx1 t1 db blk h1]
      show (⟨(db.rows ++ [⟨db.nextId, "bitcoin", blk.height, blk.hash,
      Hd (_compact_block_payload_bitcoin blk), t1, _compact_block_payload_bitcoin blk⟩]) ++ [⟨db.nextId + 1, "bitcoin", blk.height, blk.hash,
      Hd (_compact_block_payload_bitcoin blk), t2, _compact_block_payload_bitcoin blk⟩], db.nextId + 2⟩ : MirrorDB) =
        ⟨db.rows ++ ([⟨db.nextId, "bitcoin", blk.height, blk.hash,
      Hd (_compact_block_payload_bitcoin blk), t1, _compact_block_payload_bitcoin blk⟩] ++ [⟨db.nextId + 1, "bitcoin", blk.height, blk.hash,
      Hd (_compact_block_payload_bitcoin blk), t2, _compact_block_payload_bitcoin blk⟩]), db.nextId + 2⟩
      rw [List.append_assoc]
    refine ⟨⟨db.nextId, "bitcoin", blk.height, blk.hash,
      Hd (_compact_block_payload_bitcoin blk), t1, _compact_block_payload_bitcoin blk⟩, ⟨db.nextId + 1, "bitcoin", blk.height, blk.hash,
      Hd (_compact_block_payload_bitcoin blk), t2, _compact_block_payload_bitcoin blk⟩, ?_, by simp, ?_, ?_, rfl, rfl, rfl, rfl⟩
    · rw [e2]
      rfl
    · rw [e2, getMirror_append_fresh hwf (le_refl _)]
      simp [getMirror]
    · rw [e2, getMirror_append_fresh hwf (Nat.le_succ _)]
      simp [getMirror, List.find?]
      rw [show (db.nextId == db.nextId + 1) = false from beq_eq_false_iff_ne.mpr (by omega)]
  · intro ctx t db2
    cases hf : fetch_bitcoin_block_once H1 ctx with
    | error e =>
      refine ⟨[], ?_⟩
      rw [show trigger_bitcoin_fetch H1 Hd ctx t db2 =
        (match fetch_bitcoin_block_once H1 ctx with
          | .error e => (.error (500, e.message), db2)
          | .ok block =>
            (.ok (Hd (_compact_block_payload_bitcoin block)),
              store_mirror_entry db2 "bitcoin" block.height block.hash
                (Hd (_compact_block_payload_bitcoin block)) t
                (_compact_block_payload_bitcoin block))) from rfl]
      rw [hf]
      simp
    | ok b =>
      refine ⟨[⟨db2.nextId, "bitcoin", b.height, b.hash,
        Hd (_compact_block_payload_bitcoin b), t, _compact_block_payload_bitcoin b⟩], ?_⟩
      rw [unfold1 ctx t db2 b hf]
  · intro db2 mid
    rw [show mirror_temporal_lock db2 mid =
      (match getMirror db2 mid with
        | none => (.error (404, "not found"), db2)
        | some row =>
          match _scale_encode_temporal_lock
              ⟨some (row.timestamp + 300), some 1000, some row.merkle_root⟩ with
          | .error _ => (.error (500, "Internal Server Error"), db2)
          | .ok encoded =>
            (.ok ⟨"0x" ++ bytesToHex encoded,
              ⟨some (row.timestamp + 300), some 1000, some row.merkle_root⟩⟩, db2))
      from rfl]
    cases hg : getMirror db2 mid with
    | none => simp
    | some row =>
      simp only [hg]
      cases he : _scale_encode_temporal_lock
          ⟨some (row.timestamp + 300), some 1000, some row.merkle_root⟩ with
      | error e => simp [he]
      | ok encoded => simp [he]
  · intro db2
    rfl

/-- C8 witness: two fetches of the same concrete block against the empty
store leave two distinct, independently retrievable rows; the read handlers
and a further fetch leave or extend the store as the theorem states. -/
theorem mirror_store_append_only_witness :
    (∃ r1 r2 : MirrorRow,
      ((trigger_bitcoin_fetch id id ⟨false, some "u", .ok ⟨some 1, some "bh", some 2, [], none⟩, 0⟩ 20
          (trigger_bitcoin_fetch id id ⟨false, some "u", .ok ⟨some 1, some "bh", some 2, [], none⟩, 0⟩ 10 ⟨[], 1⟩).2).2).rows = ([] : List MirrorRow) ++ [r1, r2] ∧
      r1.id ≠ r2.id ∧
      getMirror (trigger_bitcoin_fetch id id ⟨false, some "u", .ok ⟨some 1, some "bh", some 2, [], none⟩, 0⟩ 20
          (trigger_bitcoin_fetch id id ⟨false, some "u", .ok ⟨some 1, some "bh", some 2, [], none⟩, 0⟩ 10 ⟨[], 1⟩).2).2 r1.id = some r1 ∧
      getMirror (trigger_bitcoin_fetch id id ⟨false, some "u", .ok ⟨some 1, some "bh", some 2, [], none⟩, 0⟩ 20
          (trigger_bitcoin_fetch id id ⟨false, some "u", .ok ⟨some 1, some "bh", some 2, [], none⟩, 0⟩ 10 ⟨[], 1⟩).2).2 r2.id = some r2 ∧
      r1.chain = "bitcoin" ∧ r2.chain = "bitcoin" ∧
      r1.block_number = some 1 ∧ r2.block_number = some 1) ∧
    (∃ tail, ((trigger_bitcoin_fetch id id ⟨false, some "u", .ok ⟨some 1, some "bh", some 2, [], none⟩, 0⟩ 30 ⟨[], 3⟩).2).rows =
      ([] : List MirrorRow) ++ tail) ∧
    (mirror_temporal_lock ⟨[], 3⟩ 0).2 = ⟨[], 3⟩ ∧
    (list_mirrors ⟨[], 3⟩).2 = ⟨[], 3⟩ :=
  ⟨(mirror_store_append_only id id ⟨false, some "u", .ok ⟨some 1, some "bh", some 2, [], none⟩, 0⟩ ⟨false, some "u", .ok ⟨some 1, some "bh", some 2, [], none⟩, 0⟩ 10 20 ⟨[], 1⟩
      ⟨some 1, some "bh", some 2, [], none⟩
      (fun r hr => absurd hr (List.not_mem_nil r)) rfl rfl).1,
   (mirror_store_append_only id id ⟨false, some "u", .ok ⟨some 1, some "bh", some 2, [], none⟩, 0⟩ ⟨false, some "u", .ok ⟨some 1, some "bh", some 2, [], none⟩, 0⟩ 10 20 ⟨[], 1⟩
      ⟨some 1, some "bh", some 2, [], none⟩
      (fun r hr => absurd hr (List.not_mem_nil r)) rfl rfl).2.1 ⟨false, some "u", .ok ⟨some 1, some "bh", some 2, [], none⟩, 0⟩ 30 ⟨[], 3⟩,
   (mirror_store_append_only id id ⟨false, some "u", .ok ⟨some 1, some "bh", some 2, [], none⟩, 0⟩ ⟨false, some "u", .ok ⟨some 1, some "bh", some 2, [], none⟩, 0⟩ 10 20 ⟨[], 1⟩
      ⟨some 1, some "bh", some 2, [], none⟩
      (fun r hr => absurd hr (List.not_mem_nil r)) rfl rfl).2.2.1 ⟨[], 3⟩ 0,
   (mirror_store_append_only id id ⟨false, some "u", .ok ⟨some 1, some "bh", some 2, [], none⟩, 0⟩ ⟨false, some "u", .ok ⟨some 1, some "bh", some 2, [], none⟩, 0⟩ 10 20 ⟨[], 1⟩
      ⟨some 1, some "bh", some 2, [], none⟩
      (fun r hr => absurd hr (List.not_mem_nil r)) rfl rfl).2.2.2 ⟨[], 3⟩⟩

end Luxbin
